import Mathlib

/-!
Verification of the yolov3-tiny loss/data pipeline.

The development shallowly embeds the box-geometry, target-preprocessing and
loss-composition code of `yolov3tiny/loss.py` and the label construction of
`yolov3tiny/data.py`.  Tensors become (nested) lists; machine floats become
exact rationals, except where the source takes logarithms or exponentials, in
which case values live in `ℝ`.  Fallible tensor operations (shape asserts,
out-of-range scatter/gather, binary-cross-entropy shape checks) return
`Option`.
-/

set_option maxHeartbeats 1000000

namespace Yolo

/-- Row of a box tensor: the first four entries are the box fields, further
entries are confidence and class attributes.  Field access mirrors
`tensor[..., i]`. -/
abbrev Row (α : Type) := List α

/-- Embedding of `iou` from `loss.py` for a single pair of rows.  The batched
torch call computes exactly this value at every `(i, j)` position of its
output matrix.  `1 / 1000000000` embeds the float literal `1e-9`. -/
def iouPair {α : Type} [LinearOrderedField α]
    (center_aligned center_format : Bool) (r1 r2 : Row α) : α :=
  let x1 := r1.getD 0 0
  let x2 := r2.getD 0 0
  let y1 := r1.getD 1 0
  let y2 := r2.getD 1 0
  let w1 := r1.getD 2 0
  let w2 := r2.getD 2 0
  let h1 := r1.getD 3 0
  let h2 := r2.getD 3 0
  let area1 := w1 * h1
  let area2 := w2 * h2
  let inter :=
    if center_aligned then
      max 0 (min w1 w2) * max 0 (min h1 h2)
    else
      let x1 := if center_format then x1 - w1 / 2 else x1
      let x2 := if center_format then x2 - w2 / 2 else x2
      let y1 := if center_format then y1 - h1 / 2 else y1
      let y2 := if center_format then y2 - h2 / 2 else y2
      let w := max 0 (min (x1 + w1) (x2 + w2) - max x1 x2)
      let h := max 0 (min (y1 + h1) (y2 + h2) - max y1 y2)
      w * h
  inter / (area1 + area2 - inter + 1 / 1000000000)

/-- Pairwise IoU matrix between two box sets, the per-image content of the
`(batch, n1, n2)` output of `iou`. -/
def iouMatrix {α : Type} [LinearOrderedField α]
    (center_aligned center_format : Bool) (A B : List (Row α)) :
    List (List α) :=
  A.map fun r1 => B.map fun r2 => iouPair center_aligned center_format r1 r2

/-- Translating a box row by a constant offset: fields 0 and 1 (position)
shift, all other fields are untouched. -/
def translateRow {α : Type} [LinearOrderedField α] (dx dy : α) (r : Row α) :
    Row α :=
  (r.set 0 (r.getD 0 0 + dx)).set 1 (r.getD 1 0 + dy)

lemma getD_set_ne {α : Type} (l : List α) {i j : ℕ} (a d : α) (h : i ≠ j) :
    (l.set i a).getD j d = l.getD j d := by
  simp [List.getD_eq_getElem?_getD, List.getElem?_set_ne h]

lemma translateRow_getD_two {α : Type} [LinearOrderedField α]
    (dx dy : α) (r : Row α) : (translateRow dx dy r).getD 2 0 = r.getD 2 0 := by
  unfold translateRow
  rw [getD_set_ne _ _ _ (by omega), getD_set_ne _ _ _ (by omega)]

lemma translateRow_getD_three {α : Type} [LinearOrderedField α]
    (dx dy : α) (r : Row α) : (translateRow dx dy r).getD 3 0 = r.getD 3 0 := by
  unfold translateRow
  rw [getD_set_ne _ _ _ (by omega), getD_set_ne _ _ _ (by omega)]

/-- With `center_aligned = true` the IoU of two rows is a function of their
width and height fields only. -/
lemma iouPair_center_aligned {α : Type} [LinearOrderedField α]
    (cf : Bool) (r1 r2 : Row α) :
    iouPair true cf r1 r2 =
      (max 0 (min (r1.getD 2 0) (r2.getD 2 0)) *
        max 0 (min (r1.getD 3 0) (r2.getD 3 0))) /
      (r1.getD 2 0 * r1.getD 3 0 + r2.getD 2 0 * r2.getD 3 0 -
        max 0 (min (r1.getD 2 0) (r2.getD 2 0)) *
          max 0 (min (r1.getD 3 0) (r2.getD 3 0)) + 1 / 1000000000) := rfl

lemma iouPair_center_aligned_translate_left {α : Type} [LinearOrderedField α]
    (cf : Bool) (dx dy : α) (r1 r2 : Row α) :
    iouPair true cf (translateRow dx dy r1) r2 = iouPair true cf r1 r2 := by
  rw [iouPair_center_aligned, iouPair_center_aligned,
    translateRow_getD_two, translateRow_getD_three]

lemma iouPair_center_aligned_translate_right {α : Type} [LinearOrderedField α]
    (cf : Bool) (dx dy : α) (r1 r2 : Row α) :
    iouPair true cf r1 (translateRow dx dy r2) = iouPair true cf r1 r2 := by
  rw [iouPair_center_aligned, iouPair_center_aligned,
    translateRow_getD_two, translateRow_getD_three]

/-- C8: for every pair of box sets and every constant translation offset
applied to the position fields of either set, the `center_aligned = true` IoU
matrix is unchanged: it depends only on the width and height fields. -/
theorem c8_center_aligned_iou_translation_invariant
    (cf : Bool) (dx dy : ℚ) (A B : List (Row ℚ)) :
    iouMatrix true cf (A.map (translateRow dx dy)) B = iouMatrix true cf A B ∧
    iouMatrix true cf A (B.map (translateRow dx dy)) = iouMatrix true cf A B := by
  constructor
  · unfold iouMatrix
    rw [List.map_map]
    refine List.map_congr_left fun r1 _ => ?_
    refine List.map_congr_left fun r2 _ => ?_
    exact iouPair_center_aligned_translate_left cf dx dy r1 r2
  · unfold iouMatrix
    refine List.map_congr_left fun r1 _ => ?_
    rw [List.map_map]
    refine List.map_congr_left fun r2 _ => ?_
    exact iouPair_center_aligned_translate_right cf dx dy r1 r2

/-- Index of the first maximal element of a list, the behaviour of
`torch.argmax` along a dimension (ties resolved to the first occurrence). -/
def argmaxIdx {α : Type} [LinearOrder α] : List α → ℕ
  | [] => 0
  | [_] => 0
  | x :: y :: rest =>
    let j := argmaxIdx (y :: rest)
    if x < (y :: rest).getD j x then j + 1 else 0

lemma argmaxIdx_lt_length {α : Type} [LinearOrder α] (l : List α)
    (h : l ≠ []) : argmaxIdx l < l.length := by
  match l with
  | [_] => simp [argmaxIdx]
  | x :: y :: rest =>
    have ih : argmaxIdx (y :: rest) < rest.length + 1 := by
      simpa using argmaxIdx_lt_length (y :: rest) (by simp)
    simp only [argmaxIdx, List.length_cons]
    split
    · omega
    · omega

/-- Synthetic anchor box: zero position concatenated with the anchor's
width/height, as built from `xy_anchors` and `wh_anchors` in
`preprocess_targets`. -/
def anchorRow (a : ℚ × ℚ) : Row ℚ := [0, 0, a.1, a.2]

/-- The anchor index `torch.argmax(iou_anchors_target, dim=1)` chosen for one
target row. -/
def anchorIndexRow (anchors : List (ℚ × ℚ)) (r : Row ℚ) : ℕ :=
  argmaxIdx (anchors.map fun a => iouPair true false (anchorRow a) r)

/-- Scale group of the chosen anchor: `anchor_index // 3`. -/
def scaleRow (anchors : List (ℚ × ℚ)) (r : Row ℚ) : ℕ :=
  anchorIndexRow anchors r / 3

/-- Stride of the matched scale: `(image_size / 26) * 2 ** scale`. -/
def strideRow (anchors : List (ℚ × ℚ)) (image_size : ℚ) (r : Row ℚ) : ℚ :=
  image_size / 26 * 2 ^ scaleRow anchors r

/-- Grid-cell column `cx = target_x // stride` (float floor division). -/
def cellX (anchors : List (ℚ × ℚ)) (image_size : ℚ) (r : Row ℚ) : ℤ :=
  ⌊r.getD 0 0 / strideRow anchors image_size r⌋

/-- Grid-cell row `cy = target_y // stride`. -/
def cellY (anchors : List (ℚ × ℚ)) (image_size : ℚ) (r : Row ℚ) : ℤ :=
  ⌊r.getD 1 0 / strideRow anchors image_size r⌋

/-- Offset of the target's x coordinate inside its grid cell,
`target_x / stride - cx`. -/
def fracX (anchors : List (ℚ × ℚ)) (image_size : ℚ) (r : Row ℚ) : ℚ :=
  r.getD 0 0 / strideRow anchors image_size r - cellX anchors image_size r

/-- Offset of the target's y coordinate inside its grid cell. -/
def fracY (anchors : List (ℚ × ℚ)) (image_size : ℚ) (r : Row ℚ) : ℚ :=
  r.getD 1 0 / strideRow anchors image_size r - cellY anchors image_size r

/-- Embedding of `torch.clamp(x, lo, hi)`. -/
def clampT {α : Type} [LinearOrder α] (lo hi x : α) : α := min hi (max lo x)

/-- The float literal `1e-9` used as clamp bound, as an exact rational. -/
def epsC : ℚ := 1 / 1000000000

/-- Encoded x offset `tx = log(t / (1 - t))` with
`t = clamp(target_x / stride - cx, 1e-9, 1 - 1e-9)`. -/
noncomputable def txRow (anchors : List (ℚ × ℚ)) (image_size : ℚ) (r : Row ℚ) : ℝ :=
  let t : ℚ := clampT epsC (1 - epsC) (fracX anchors image_size r)
  Real.log ((t : ℝ) / (1 - (t : ℝ)))

/-- Encoded y offset. -/
noncomputable def tyRow (anchors : List (ℚ × ℚ)) (image_size : ℚ) (r : Row ℚ) : ℝ :=
  let t : ℚ := clampT epsC (1 - epsC) (fracY anchors image_size r)
  Real.log ((t : ℝ) / (1 - (t : ℝ)))

/-- The anchor pair selected by `torch.index_select(wh_anchors, 0, anchor_index)`. -/
def chosenAnchor (anchors : List (ℚ × ℚ)) (r : Row ℚ) : ℚ × ℚ :=
  anchors.getD (anchorIndexRow anchors r) (0, 0)

/-- Encoded width `tw = log(target_w / anchor_w)`. -/
noncomputable def twRow (anchors : List (ℚ × ℚ)) (r : Row ℚ) : ℝ :=
  Real.log ((r.getD 2 0 : ℝ) / ((chosenAnchor anchors r).1 : ℝ))

/-- Encoded height `th = log(target_h / anchor_h)`. -/
noncomputable def thRow (anchors : List (ℚ × ℚ)) (r : Row ℚ) : ℝ :=
  Real.log ((r.getD 3 0 : ℝ) / ((chosenAnchor anchors r).2 : ℝ))

/-- One row of `target_batch_t`: the first four fields replaced by the encoded
offsets, the remaining attributes kept. -/
noncomputable def encodeRow (anchors : List (ℚ × ℚ)) (image_size : ℚ) (r : Row ℚ) : Row ℝ :=
  txRow anchors image_size r :: tyRow anchors image_size r ::
    twRow anchors r :: thRow anchors r :: (r.drop 4).map (fun q => (q : ℝ))

/-- Number of prediction slots per image, the literal
`13 ** 2 * 3 + 26 ** 2 * 3` from `preprocess_targets`. -/
def numPredictions : ℕ := 13 ^ 2 * 3 + 26 ^ 2 * 3

/-- Flat prediction index of one target row before the batch offset:
`large_scale_mask * (image_size // 32) ** 2 * 3 + grid_size ** 2 *
(anchor_index % 3) + grid_size * cy + cx`. -/
def objectIndexRow (anchors : List (ℚ × ℚ)) (image_size : ℚ) (r : Row ℚ) : ℤ :=
  let large_scale_mask : ℤ := if scaleRow anchors r = 0 then 1 else 0
  let grid_size : ℤ := ⌊image_size / strideRow anchors image_size r⌋
  large_scale_mask * ⌊image_size / 32⌋ ^ 2 * 3 +
    grid_size ^ 2 * ((anchorIndexRow anchors r % 3 : ℕ) : ℤ) +
    grid_size * cellY anchors image_size r + cellX anchors image_size r

/-- Embedding of `preprocess_targets`: per image the first `num_targets[b]`
rows are encoded and indexed, indices offset by `b * num_predictions`, then
everything is concatenated across the batch. -/
noncomputable def preprocessTargets (tb : List (List (Row ℚ))) (counts : List ℕ)
    (anchors : List (ℚ × ℚ)) (image_size : ℚ) : List (Row ℝ) × List ℤ :=
  (((List.range tb.length).map fun b =>
      ((tb.getD b []).take (counts.getD b 0)).map
        (encodeRow anchors image_size)).flatten,
   ((List.range tb.length).map fun b =>
      (((tb.getD b []).take (counts.getD b 0)).map
        (objectIndexRow anchors image_size)).map
          (fun i => i + (b : ℤ) * (numPredictions : ℤ))).flatten)

lemma anchorIndexRow_lt (anchors : List (ℚ × ℚ)) (r : Row ℚ)
    (h : anchors ≠ []) : anchorIndexRow anchors r < anchors.length := by
  have := argmaxIdx_lt_length
    (anchors.map fun a => iouPair true false (anchorRow a) r) (by simpa)
  simpa [anchorIndexRow] using this

lemma scaleRow_fine (anchors : List (ℚ × ℚ)) (r : Row ℚ)
    (h : anchorIndexRow anchors r < 3) : scaleRow anchors r = 0 :=
  Nat.div_eq_of_lt h

lemma scaleRow_coarse (anchors : List (ℚ × ℚ)) (r : Row ℚ)
    (h3 : 3 ≤ anchorIndexRow anchors r) (h6 : anchorIndexRow anchors r < 6) :
    scaleRow anchors r = 1 := by
  unfold scaleRow; omega

lemma strideRow_fine (anchors : List (ℚ × ℚ)) (r : Row ℚ)
    (h : anchorIndexRow anchors r < 3) : strideRow anchors 416 r = 16 := by
  rw [strideRow, scaleRow_fine anchors r h]; norm_num

lemma strideRow_coarse (anchors : List (ℚ × ℚ)) (r : Row ℚ)
    (h3 : 3 ≤ anchorIndexRow anchors r) (h6 : anchorIndexRow anchors r < 6) :
    strideRow anchors 416 r = 32 := by
  rw [strideRow, scaleRow_coarse anchors r h3 h6]; norm_num

lemma floor_div_bounds (q s : ℚ) (g : ℤ) (hs : 0 < s) (h0 : 0 ≤ q)
    (h1 : q < s * g) : 0 ≤ ⌊q / s⌋ ∧ ⌊q / s⌋ < g := by
  refine ⟨Int.floor_nonneg.mpr (div_nonneg h0 hs.le), ?_⟩
  rw [Int.floor_lt, div_lt_iff₀ hs]
  linarith

/-- C3 (amended): at image size 416, the flat index of a target box equals
`base + grid_size^2 * (anchor_index % 3) + grid_size * grid_y + grid_x`,
where the COARSER 13 × 13 scale occupies the range `[0, 13^2*3)` (base 0) and
the FINER 26 × 26 scale occupies the next range `[13^2*3, 13^2*3 + 26^2*3)`
(base `13^2*3`); the whole index is offset by `batch * num_predictions` with
`num_predictions = 13^2*3 + 26^2*3`. -/
theorem c3_flat_index_layout (anchors : List (ℚ × ℚ)) (r : Row ℚ)
    (h6 : anchors.length = 6)
    (hx0 : 0 ≤ r.getD 0 0) (hx1 : r.getD 0 0 < 416)
    (hy0 : 0 ≤ r.getD 1 0) (hy1 : r.getD 1 0 < 416) :
    (objectIndexRow anchors 416 r =
      (if anchorIndexRow anchors r < 3 then ((13 : ℤ) ^ 2 * 3) else 0) +
        (if anchorIndexRow anchors r < 3 then (26 : ℤ) else 13) ^ 2 *
          ((anchorIndexRow anchors r % 3 : ℕ) : ℤ) +
        (if anchorIndexRow anchors r < 3 then (26 : ℤ) else 13) *
          cellY anchors 416 r + cellX anchors 416 r) ∧
    (anchorIndexRow anchors r < 3 →
      (13 : ℤ) ^ 2 * 3 ≤ objectIndexRow anchors 416 r ∧
        objectIndexRow anchors 416 r < ((numPredictions : ℕ) : ℤ)) ∧
    (3 ≤ anchorIndexRow anchors r →
      0 ≤ objectIndexRow anchors 416 r ∧
        objectIndexRow anchors 416 r < (13 : ℤ) ^ 2 * 3) ∧
    ∀ (tb : List (List (Row ℚ))) (counts : List ℕ),
      (preprocessTargets tb counts anchors 416).2 =
        ((List.range tb.length).map fun b =>
          ((tb.getD b []).take (counts.getD b 0)).map fun t =>
            objectIndexRow anchors 416 t +
              (b : ℤ) * ((13 : ℤ) ^ 2 * 3 + (26 : ℤ) ^ 2 * 3)).flatten := by
  have hne : anchors ≠ [] := by
    intro hcon; rw [hcon] at h6; simp at h6
  have ha6 : anchorIndexRow anchors r < 6 := h6 ▸ anchorIndexRow_lt anchors r hne
  have hmod : anchorIndexRow anchors r % 3 < 3 := Nat.mod_lt _ (by norm_num)
  have hm' : ((anchorIndexRow anchors r % 3 : ℕ) : ℤ) < 3 := by exact_mod_cast hmod
  have hm0 : (0 : ℤ) ≤ ((anchorIndexRow anchors r % 3 : ℕ) : ℤ) := by positivity
  have h32 : ⌊(416 : ℚ) / 32⌋ = 13 := by norm_num [Int.floor_eq_iff]
  have h16 : ⌊(416 : ℚ) / 16⌋ = 26 := by norm_num [Int.floor_eq_iff]
  have hnp : ((numPredictions : ℕ) : ℤ) = 2535 := by norm_num [numPredictions]
  refine ⟨?_, ?_, ?_, ?_⟩
  · by_cases hfine : anchorIndexRow anchors r < 3
    · have hs := strideRow_fine anchors r hfine
      have hsc := scaleRow_fine anchors r hfine
      simp only [objectIndexRow]
      rw [if_pos hsc, hs, h32, h16]
      simp only [if_pos hfine]
      ring
    · have h3 : 3 ≤ anchorIndexRow anchors r := by omega
      have hs := strideRow_coarse anchors r h3 ha6
      have hsc := scaleRow_coarse anchors r h3 ha6
      simp only [objectIndexRow]
      rw [if_neg (by omega : ¬ scaleRow anchors r = 0), hs, h32]
      simp only [if_neg hfine]
      ring
  · intro hfine
    have hs := strideRow_fine anchors r hfine
    have hsc := scaleRow_fine anchors r hfine
    obtain ⟨hcx0, hcx1⟩ : 0 ≤ cellX anchors 416 r ∧ cellX anchors 416 r < 26 := by
      rw [cellX, hs]
      exact floor_div_bounds (r.getD 0 0) 16 26 (by norm_num) hx0
        (by push_cast; linarith)
    obtain ⟨hcy0, hcy1⟩ : 0 ≤ cellY anchors 416 r ∧ cellY anchors 416 r < 26 := by
      rw [cellY, hs]
      exact floor_div_bounds (r.getD 1 0) 16 26 (by norm_num) hy0
        (by push_cast; linarith)
    simp only [objectIndexRow]
    rw [if_pos hsc, hs, h32, h16, hnp]
    norm_num
    omega
  · intro h3
    have hs := strideRow_coarse anchors r h3 ha6
    obtain ⟨hcx0, hcx1⟩ : 0 ≤ cellX anchors 416 r ∧ cellX anchors 416 r < 13 := by
      rw [cellX, hs]
      exact floor_div_bounds (r.getD 0 0) 32 13 (by norm_num) hx0
        (by push_cast; linarith)
    obtain ⟨hcy0, hcy1⟩ : 0 ≤ cellY anchors 416 r ∧ cellY anchors 416 r < 13 := by
      rw [cellY, hs]
      exact floor_div_bounds (r.getD 1 0) 32 13 (by norm_num) hy0
        (by push_cast; linarith)
    have hsc := scaleRow_coarse anchors r h3 ha6
    simp only [objectIndexRow]
    rw [if_neg (by omega : ¬ scaleRow anchors r = 0), hs, h32]
    norm_num
    omega
  · intro tb counts
    show ((List.range tb.length).map fun b =>
        (((tb.getD b []).take (counts.getD b 0)).map
          (objectIndexRow anchors 416)).map
            (fun i => i + (b : ℤ) * (numPredictions : ℤ))).flatten = _
    refine congrArg List.flatten (List.map_congr_left fun b _ => ?_)
    rw [List.map_map]
    refine List.map_congr_left fun t _ => ?_
    simp only [Function.comp]
    norm_num [numPredictions]

/-- Tiny-YOLO style anchor configuration used for concrete evaluations: six
anchors in two scale groups of three. -/
def anchorsEx : List (ℚ × ℚ) :=
  [(10, 10), (20, 20), (30, 30), (100, 100), (200, 200), (300, 300)]

/-- Concrete target row whose best-matching anchor is number 3, i.e. the
coarser 13 × 13 scale. -/
def rowEx : Row ℚ := [8, 8, 100, 100]

/-- C3 counterexample: this target box is matched to the coarser 13 × 13
scale (`anchor_index = 3`, scale group 1), yet its flat index is 0, which
does not lie in the range `[26^2*3, 26^2*3 + 13^2*3)` that the claim assigns
to the coarser scale.  The code places the coarser scale first, not after the
finer one. -/
theorem c3_counterexample :
    anchorIndexRow anchorsEx rowEx = 3 ∧
    objectIndexRow anchorsEx 416 rowEx = 0 ∧
    ¬ ((26 : ℤ) ^ 2 * 3 ≤ objectIndexRow anchorsEx 416 rowEx) := by
  have ha : anchorIndexRow anchorsEx rowEx = 3 := by
    norm_num [anchorIndexRow, anchorsEx, rowEx, anchorRow, argmaxIdx, iouPair,
      min_def, max_def]
  have hsc : scaleRow anchorsEx rowEx = 1 := by rw [scaleRow, ha]
  have hst : strideRow anchorsEx 416 rowEx = 32 := by
    rw [strideRow, hsc]; norm_num
  have hcx : cellX anchorsEx 416 rowEx = 0 := by
    rw [cellX, hst]; norm_num [rowEx]
  have hcy : cellY anchorsEx 416 rowEx = 0 := by
    rw [cellY, hst]; norm_num [rowEx]
  have hobj : objectIndexRow anchorsEx 416 rowEx = 0 := by
    simp only [objectIndexRow]
    rw [hsc, hst, hcx, hcy, ha]
    norm_num
  exact ⟨ha, hobj, by rw [hobj]; norm_num⟩

/-- Witness for `c3_flat_index_layout`: its hypotheses hold at the concrete
anchor set and row above, and the amended coarse-scale range is realised. -/
theorem c3_flat_index_layout_witness :
    anchorsEx.length = 6 ∧
    (3 ≤ anchorIndexRow anchorsEx rowEx →
      0 ≤ objectIndexRow anchorsEx 416 rowEx ∧
        objectIndexRow anchorsEx 416 rowEx < (13 : ℤ) ^ 2 * 3) :=
  ⟨rfl, (c3_flat_index_layout anchorsEx rowEx rfl (by norm_num [rowEx])
    (by norm_num [rowEx]) (by norm_num [rowEx]) (by norm_num [rowEx])).2.2.1⟩

/-- Logistic sigmoid `1 / (1 + exp(-x))`, the network's decoding for the
`tx`, `ty` offsets (`bx = sigmoid(tx) + cx`). -/
noncomputable def sigmoid (x : ℝ) : ℝ := 1 / (1 + Real.exp (-x))

lemma sigmoid_log_ratio (c : ℝ) (h0 : 0 < c) (h1 : c < 1) :
    sigmoid (Real.log (c / (1 - c))) = c := by
  have h1c : 0 < 1 - c := by linarith
  have hq : 0 < c / (1 - c) := div_pos h0 h1c
  rw [sigmoid, Real.exp_neg, Real.exp_log hq, inv_div]
  field_simp

lemma getD_mem {α : Type} (l : List α) (i : ℕ) (d : α) (h : i < l.length) :
    l.getD i d ∈ l := by
  rw [List.getD_eq_getElem?_getD, List.getElem?_eq_getElem h]
  exact List.getElem_mem h

lemma clampT_eq_self {α : Type} [LinearOrder α] (lo hi x : α)
    (h1 : lo ≤ x) (h2 : x ≤ hi) : clampT lo hi x = x := by
  rw [clampT, max_eq_right h1, min_eq_right h2]

/-- C6: for a target box with positive width and height whose in-cell offsets
lie strictly inside the `1e-9` clamp bounds, the network's decoding
(`sigmoid(tx) + cx`, `anchor_w * exp(tw)`, ...) applied to the encoded output
of `preprocess_targets` recovers `target_x / stride` (hence the center within
its grid cell) and the original width and height exactly. -/
theorem c6_encode_decode_roundtrip (anchors : List (ℚ × ℚ)) (image_size : ℚ)
    (r : Row ℚ) (hanc : anchors ≠ [])
    (hpos : ∀ a ∈ anchors, 0 < a.1 ∧ 0 < a.2)
    (hw : 0 < r.getD 2 0) (hh : 0 < r.getD 3 0)
    (hfx1 : epsC < fracX anchors image_size r)
    (hfx2 : fracX anchors image_size r < 1 - epsC)
    (hfy1 : epsC < fracY anchors image_size r)
    (hfy2 : fracY anchors image_size r < 1 - epsC) :
    sigmoid (txRow anchors image_size r) +
        ((cellX anchors image_size r : ℤ) : ℝ) =
      ((r.getD 0 0 / strideRow anchors image_size r : ℚ) : ℝ) ∧
    sigmoid (tyRow anchors image_size r) +
        ((cellY anchors image_size r : ℤ) : ℝ) =
      ((r.getD 1 0 / strideRow anchors image_size r : ℚ) : ℝ) ∧
    ((chosenAnchor anchors r).1 : ℝ) * Real.exp (twRow anchors r) =
      (r.getD 2 0 : ℝ) ∧
    ((chosenAnchor anchors r).2 : ℝ) * Real.exp (thRow anchors r) =
      (r.getD 3 0 : ℝ) := by
  have heps : (0 : ℚ) < epsC := by norm_num [epsC]
  have hmem : chosenAnchor anchors r ∈ anchors := by
    rw [chosenAnchor]
    exact getD_mem anchors _ (0, 0)
      (by simpa using anchorIndexRow_lt anchors r hanc)
  have haw : 0 < (chosenAnchor anchors r).1 := (hpos _ hmem).1
  have hah : 0 < (chosenAnchor anchors r).2 := (hpos _ hmem).2
  refine ⟨?_, ?_, ?_, ?_⟩
  · have hcl : clampT epsC (1 - epsC) (fracX anchors image_size r) =
        fracX anchors image_size r := clampT_eq_self _ _ _ hfx1.le hfx2.le
    have hc0 : (0 : ℝ) < ((fracX anchors image_size r : ℚ) : ℝ) := by
      exact_mod_cast lt_trans heps hfx1
    have hfr1 : fracX anchors image_size r < 1 := by linarith
    have hc1 : ((fracX anchors image_size r : ℚ) : ℝ) < 1 := by
      exact_mod_cast hfr1
    simp only [txRow]
    rw [hcl, sigmoid_log_ratio _ hc0 hc1, fracX]
    push_cast
    ring
  · have hcl : clampT epsC (1 - epsC) (fracY anchors image_size r) =
        fracY anchors image_size r := clampT_eq_self _ _ _ hfy1.le hfy2.le
    have hc0 : (0 : ℝ) < ((fracY anchors image_size r : ℚ) : ℝ) := by
      exact_mod_cast lt_trans heps hfy1
    have hfr1 : fracY anchors image_size r < 1 := by linarith
    have hc1 : ((fracY anchors image_size r : ℚ) : ℝ) < 1 := by
      exact_mod_cast hfr1
    simp only [tyRow]
    rw [hcl, sigmoid_log_ratio _ hc0 hc1, fracY]
    push_cast
    ring
  · rw [twRow]
    have hq : (0 : ℝ) < (r.getD 2 0 : ℝ) / ((chosenAnchor anchors r).1 : ℝ) :=
      div_pos (by exact_mod_cast hw) (by exact_mod_cast haw)
    rw [Real.exp_log hq]
    have : ((chosenAnchor anchors r).1 : ℝ) ≠ 0 := by
      exact_mod_cast haw.ne'
    field_simp
  · rw [thRow]
    have hq : (0 : ℝ) < (r.getD 3 0 : ℝ) / ((chosenAnchor anchors r).2 : ℝ) :=
      div_pos (by exact_mod_cast hh) (by exact_mod_cast hah)
    rw [Real.exp_log hq]
    have : ((chosenAnchor anchors r).2 : ℝ) ≠ 0 := by
      exact_mod_cast hah.ne'
    field_simp

/-- Single-anchor configuration and row for the round-trip witness. -/
def anchorsW : List (ℚ × ℚ) := [(16, 16)]

/-- Witness row: box centered at (8, 8) with width and height 16, giving an
in-cell offset of exactly 1/2 at stride 16. -/
def rowW : Row ℚ := [8, 8, 16, 16]

lemma fracX_rowW : fracX anchorsW 416 rowW = 1 / 2 := by
  norm_num [fracX, cellX, strideRow, scaleRow, anchorIndexRow, anchorsW, rowW,
    anchorRow, argmaxIdx, iouPair, min_def, max_def]

lemma fracY_rowW : fracY anchorsW 416 rowW = 1 / 2 := by
  norm_num [fracY, cellY, strideRow, scaleRow, anchorIndexRow, anchorsW, rowW,
    anchorRow, argmaxIdx, iouPair, min_def, max_def]

/-- Witness for `c6_encode_decode_roundtrip` at the concrete box above. -/
theorem c6_encode_decode_roundtrip_witness :
    (0 : ℚ) < rowW.getD 2 0 ∧ epsC < fracX anchorsW 416 rowW ∧
    (((chosenAnchor anchorsW rowW).1 : ℝ) * Real.exp (twRow anchorsW rowW) =
      (rowW.getD 2 0 : ℝ)) :=
  ⟨by norm_num [rowW], by rw [fracX_rowW]; norm_num [epsC],
    (c6_encode_decode_roundtrip anchorsW 416 rowW (by simp [anchorsW])
      (by norm_num [anchorsW]) (by norm_num [rowW]) (by norm_num [rowW])
      (by rw [fracX_rowW]; norm_num [epsC])
      (by rw [fracX_rowW]; norm_num [epsC])
      (by rw [fracY_rowW]; norm_num [epsC])
      (by rw [fracY_rowW]; norm_num [epsC])).2.2.1⟩

/-- Embedding of `xywh_to_xyxy` from `data.py`: fields 2 and 3 are replaced
in place by `x + w` and `y + h`. -/
def xywh_to_xyxy (bbox : Row ℚ) : Row ℚ :=
  let b1 := bbox.set 2 (bbox.getD 0 0 + bbox.getD 2 0)
  b1.set 3 (b1.getD 1 0 + b1.getD 3 0)

/-- One-hot class vector `torch.eye(num_classes)[index]`. -/
def onehot (num_classes ci : ℕ) : Row ℚ :=
  (List.range num_classes).map fun i => if i = ci then 1 else 0

/-- One retained label row built by `CocoBoundingBoxDataset.__getitem__`:
`cat((xywh_to_xyxy(bbox), [1.0], eye(num_classes)[index]))`. -/
def getitemRow (num_classes : ℕ) (bbox : Row ℚ) (ci : ℕ) : Row ℚ :=
  xywh_to_xyxy bbox ++ 1 :: onehot num_classes ci

/-- C9: `preprocess_targets` reads every target row positionally as
`(cx, cy, w, h)`: fields 2 and 3 feed both the center-aligned anchor IoU and
the `tw = log(field2 / anchor_w)`, `th = log(field3 / anchor_h)` encodings,
fields 0 and 1 feed the grid-cell computation — while the dataset emits
corner-form rows whose fields 2 and 3 are the corner coordinates `x + w` and
`y + h`; no conversion happens in between. -/
theorem c9_targets_interpreted_as_center_format
    (anchors : List (ℚ × ℚ)) (image_size x y w h : ℚ) (nc ci : ℕ) :
    (getitemRow nc [x, y, w, h] ci).getD 0 0 = x ∧
    (getitemRow nc [x, y, w, h] ci).getD 1 0 = y ∧
    (getitemRow nc [x, y, w, h] ci).getD 2 0 = x + w ∧
    (getitemRow nc [x, y, w, h] ci).getD 3 0 = y + h ∧
    anchorIndexRow anchors (getitemRow nc [x, y, w, h] ci) =
      anchorIndexRow anchors [0, 0, x + w, y + h] ∧
    twRow anchors (getitemRow nc [x, y, w, h] ci) =
      Real.log (((x + w : ℚ) : ℝ) /
        ((chosenAnchor anchors (getitemRow nc [x, y, w, h] ci)).1 : ℝ)) ∧
    thRow anchors (getitemRow nc [x, y, w, h] ci) =
      Real.log (((y + h : ℚ) : ℝ) /
        ((chosenAnchor anchors (getitemRow nc [x, y, w, h] ci)).2 : ℝ)) ∧
    cellX anchors image_size (getitemRow nc [x, y, w, h] ci) =
      ⌊x / strideRow anchors image_size (getitemRow nc [x, y, w, h] ci)⌋ ∧
    cellY anchors image_size (getitemRow nc [x, y, w, h] ci) =
      ⌊y / strideRow anchors image_size (getitemRow nc [x, y, w, h] ci)⌋ := by
  have hrow : getitemRow nc [x, y, w, h] ci =
      x :: y :: (x + w) :: (y + h) :: 1 :: onehot nc ci := rfl
  have h0 : (getitemRow nc [x, y, w, h] ci).getD 0 0 = x := by rw [hrow]; rfl
  have h1 : (getitemRow nc [x, y, w, h] ci).getD 1 0 = y := by rw [hrow]; rfl
  have h2 : (getitemRow nc [x, y, w, h] ci).getD 2 0 = x + w := by rw [hrow]; rfl
  have h3 : (getitemRow nc [x, y, w, h] ci).getD 3 0 = y + h := by rw [hrow]; rfl
  refine ⟨h0, h1, h2, h3, ?_, ?_, ?_, ?_, ?_⟩
  · unfold anchorIndexRow
    refine congrArg argmaxIdx (List.map_congr_left fun a _ => ?_)
    rw [iouPair_center_aligned, iouPair_center_aligned, h2, h3]
    rfl
  · rw [twRow, h2]
  · rw [thRow, h3]
  · rw [cellX, h0]
  · rw [cellY, h1]

/-- Embedding of the label path of `CocoBoundingBoxDataset.__getitem__`:
given the retained rows, pad with zero rows up to `max_num_boxes`
(`torch.zeros(num_box_padding, width)` raises for a negative padding count,
modelled as `none`); an image with no retained rows yields an all-zero
`(max_num_boxes, num_attributes)` label.  `tf` is the composed image/label
transform, applied between counting and padding. -/
def getitemLabel (tf : List (Row ℚ) → List (Row ℚ)) (rows : List (Row ℚ))
    (max_num_boxes num_attributes : ℕ) : Option (List (Row ℚ) × ℕ) :=
  if 0 < rows.length then
    if rows.length ≤ max_num_boxes then
      let transformed := tf rows
      some (transformed ++ List.replicate (max_num_boxes - rows.length)
        (List.replicate (transformed.getD 0 []).length 0), transformed.length)
    else none
  else some (List.replicate max_num_boxes (List.replicate num_attributes 0), 0)

/-- C10: the returned label has exactly `max_num_boxes` rows precisely when
the number of retained rows is at most `max_num_boxes`; with more retained
rows the negative padding count makes the call raise (modelled `none`)
instead of truncating. -/
theorem c10_label_padding (tf : List (Row ℚ) → List (Row ℚ))
    (rows : List (Row ℚ)) (max_num_boxes num_attributes : ℕ)
    (htf : ∀ l, (tf l).length = l.length) :
    (rows.length ≤ max_num_boxes →
      Option.map (fun p => p.1.length)
        (getitemLabel tf rows max_num_boxes num_attributes) =
        some max_num_boxes) ∧
    (max_num_boxes < rows.length →
      getitemLabel tf rows max_num_boxes num_attributes = none) := by
  constructor
  · intro hle
    by_cases hpos : 0 < rows.length
    · rw [getitemLabel, if_pos hpos, if_pos hle]
      simp [htf]
      omega
    · rw [getitemLabel, if_neg hpos]
      simp
  · intro hgt
    rw [getitemLabel, if_pos (by omega), if_neg (by omega)]

/-- Witness for `c10_label_padding`: one retained row, capacity two. -/
theorem c10_label_padding_witness :
    Option.map (fun p => p.1.length)
      (getitemLabel (fun l => l) [[0, 0, 4, 4, 1, 0]] 2 6) = some 2 :=
  (c10_label_padding (fun l => l) [[0, 0, 4, 4, 1, 0]] 2 6
    (fun _ => rfl)).1 (by norm_num)

/-- The maximum `torch.max(ious, dim=2)[0]` over one row of IoU values.
`torch.max` raises on an empty dimension; this embedding is only used with
nonempty target lists. -/
def maxD (l : List ℚ) : ℚ :=
  match l with
  | [] => 0
  | x :: xs => xs.foldl max x

/-- Embedding of `no_object_mask` called with a three-dimensional target
tensor `(batch, n, attributes)`.  The source line
`assert batch_size == target.shape[0], num_attributes == target.shape[2]`
checks ONLY the batch-size equality: the attribute-count comparison sits in
the assert's message position and is never evaluated as a condition, so no
attribute check appears here either.  A failed assert (modelled `none`) is
the loud failure path. -/
def no_object_mask_E (pred target : List (List (Row ℚ)))
    (ignore_thresh : ℚ) : Option (List (List Bool)) :=
  if pred.length = target.length then
    some (List.zipWith (fun pimg timg =>
      pimg.map fun p =>
        maxD (timg.map fun t => iouPair false true p t) < ignore_thresh)
      pred target)
  else none

/-- C7 at the failing input: a predictions tensor with 6 attributes per slot
against a target tensor with 5 attributes per slot (same batch size) is
accepted silently, while only a batch-size mismatch is rejected. -/
theorem c7_attribute_mismatch_not_checked :
    (no_object_mask_E [[[0, 0, 4, 4, 0, 0]]] [[[0, 0, 4, 4, 1]]]
        (1 / 2)).isSome = true ∧
    no_object_mask_E [[[0, 0, 4, 4, 0, 0]]] [] (1 / 2) = none := by
  constructor
  · rfl
  · rfl

/-- Embedding of `no_object_mask_filter` on the flattened mask:
`scatter_(0, object_index, zeros)` writes `0` at every listed index.
`torch.scatter_` raises on out-of-range indices; the embedding is used under
in-range hypotheses. -/
def no_object_mask_filter_E {α : Type} [Zero α] (noobj_mask : List α)
    (object_index : List ℤ) : List α :=
  object_index.foldl (fun m i => m.set i.toNat 0) noobj_mask

lemma getD_set_self {α : Type} (l : List α) (j : ℕ) (a d : α)
    (h : j < l.length) : (l.set j a).getD j d = a := by
  rw [List.getD_eq_getElem?_getD, List.getElem?_set_self]
  · rfl
  · exact h

lemma filter_getD_of_not_hit {α : Type} [Zero α] (idxs : List ℤ)
    (m : List α) (j : ℕ) (d : α) (h : ∀ i ∈ idxs, i.toNat ≠ j) :
    (no_object_mask_filter_E m idxs).getD j d = m.getD j d := by
  induction idxs generalizing m with
  | nil => rfl
  | cons i is ih =>
    have hne : i.toNat ≠ j := h i (by simp)
    have : (no_object_mask_filter_E (m.set i.toNat 0) is).getD j d =
        (m.set i.toNat 0).getD j d :=
      ih (m.set i.toNat 0) (fun i' hi' => h i' (by simp [hi']))
    calc (no_object_mask_filter_E m (i :: is)).getD j d
        = (no_object_mask_filter_E (m.set i.toNat 0) is).getD j d := rfl
      _ = (m.set i.toNat 0).getD j d := this
      _ = m.getD j d := getD_set_ne _ _ _ hne

lemma filter_length {α : Type} [Zero α] (idxs : List ℤ) (m : List α) :
    (no_object_mask_filter_E m idxs).length = m.length := by
  induction idxs generalizing m with
  | nil => rfl
  | cons i is ih =>
    calc (no_object_mask_filter_E m (i :: is)).length
        = (no_object_mask_filter_E (m.set i.toNat 0) is).length := rfl
      _ = (m.set i.toNat 0).length := ih _
      _ = m.length := by rw [List.length_set]

lemma filter_getD_of_hit {α : Type} [Zero α] (idxs : List ℤ)
    (m : List α) (j : ℕ) (d : α) (hj : j < m.length)
    (h : ∃ i ∈ idxs, i.toNat = j) :
    (no_object_mask_filter_E m idxs).getD j d = 0 := by
  induction idxs generalizing m with
  | nil => simp at h
  | cons i is ih =>
    by_cases htail : ∃ i' ∈ is, i'.toNat = j
    · calc (no_object_mask_filter_E m (i :: is)).getD j d
          = (no_object_mask_filter_E (m.set i.toNat 0) is).getD j d := rfl
        _ = 0 := ih (m.set i.toNat 0) (by rw [List.length_set]; exact hj) htail
    · have hhead : i.toNat = j := by
        obtain ⟨i', hi', hi'j⟩ := h
        rcases List.mem_cons.mp hi' with h1 | h2
        · rw [← h1]; exact hi'j
        · exact absurd ⟨i', h2, hi'j⟩ htail
      have hnot : ∀ i' ∈ is, i'.toNat ≠ j := by
        intro i' hi' hcon
        exact htail ⟨i', hi', hcon⟩
      calc (no_object_mask_filter_E m (i :: is)).getD j d
          = (no_object_mask_filter_E (m.set i.toNat 0) is).getD j d := rfl
        _ = (m.set i.toNat 0).getD j d := filter_getD_of_not_hit is _ j d hnot
        _ = 0 := by rw [← hhead]; exact getD_set_self m i.toNat 0 d (hhead ▸ hj)

/-- Bounds for the per-row flat index at image size 416: it always lies in
`[0, num_predictions)` when the box position is inside the image. -/
lemma objectIndexRow_bounds (anchors : List (ℚ × ℚ)) (r : Row ℚ)
    (h6 : anchors.length = 6)
    (hx0 : 0 ≤ r.getD 0 0) (hx1 : r.getD 0 0 < 416)
    (hy0 : 0 ≤ r.getD 1 0) (hy1 : r.getD 1 0 < 416) :
    0 ≤ objectIndexRow anchors 416 r ∧
      objectIndexRow anchors 416 r < ((numPredictions : ℕ) : ℤ) := by
  have hne : anchors ≠ [] := by
    intro hcon; rw [hcon] at h6; simp at h6
  have ha6 : anchorIndexRow anchors r < 6 := h6 ▸ anchorIndexRow_lt anchors r hne
  have hmod : anchorIndexRow anchors r % 3 < 3 := Nat.mod_lt _ (by norm_num)
  have hm' : ((anchorIndexRow anchors r % 3 : ℕ) : ℤ) < 3 := by exact_mod_cast hmod
  have hm0 : (0 : ℤ) ≤ ((anchorIndexRow anchors r % 3 : ℕ) : ℤ) := by positivity
  have h32 : ⌊(416 : ℚ) / 32⌋ = 13 := by norm_num [Int.floor_eq_iff]
  have h16 : ⌊(416 : ℚ) / 16⌋ = 26 := by norm_num [Int.floor_eq_iff]
  have hnp : ((numPredictions : ℕ) : ℤ) = 2535 := by norm_num [numPredictions]
  by_cases hfine : anchorIndexRow anchors r < 3
  · have hs := strideRow_fine anchors r hfine
    obtain ⟨hcx0, hcx1⟩ : 0 ≤ cellX anchors 416 r ∧ cellX anchors 416 r < 26 := by
      rw [cellX, hs]
      exact floor_div_bounds (r.getD 0 0) 16 26 (by norm_num) hx0
        (by push_cast; linarith)
    obtain ⟨hcy0, hcy1⟩ : 0 ≤ cellY anchors 416 r ∧ cellY anchors 416 r < 26 := by
      rw [cellY, hs]
      exact floor_div_bounds (r.getD 1 0) 16 26 (by norm_num) hy0
        (by push_cast; linarith)
    simp only [objectIndexRow]
    rw [if_pos (scaleRow_fine anchors r hfine), hs, h32, h16, hnp]
    norm_num
    omega
  · have h3 : 3 ≤ anchorIndexRow anchors r := by omega
    have hs := strideRow_coarse anchors r h3 ha6
    obtain ⟨hcx0, hcx1⟩ : 0 ≤ cellX anchors 416 r ∧ cellX anchors 416 r < 13 := by
      rw [cellX, hs]
      exact floor_div_bounds (r.getD 0 0) 32 13 (by norm_num) hx0
        (by push_cast; linarith)
    obtain ⟨hcy0, hcy1⟩ : 0 ≤ cellY anchors 416 r ∧ cellY anchors 416 r < 13 := by
      rw [cellY, hs]
      exact floor_div_bounds (r.getD 1 0) 32 13 (by norm_num) hy0
        (by push_cast; linarith)
    have hsc := scaleRow_coarse anchors r h3 ha6
    simp only [objectIndexRow]
    rw [if_neg (by omega : ¬ scaleRow anchors r = 0), hs, h32, hnp]
    norm_num
    omega

/-- Decomposition of membership in the flat index list produced by
`preprocess_targets`. -/
lemma preprocess_index_mem (tb : List (List (Row ℚ))) (counts : List ℕ)
    (anchors : List (ℚ × ℚ)) (image_size : ℚ) (i : ℤ)
    (hi : i ∈ (preprocessTargets tb counts anchors image_size).2) :
    ∃ b r, b < tb.length ∧ r ∈ (tb.getD b []).take (counts.getD b 0) ∧
      i = objectIndexRow anchors image_size r +
        (b : ℤ) * ((numPredictions : ℕ) : ℤ) := by
  simp only [preprocessTargets] at hi
  rw [List.mem_flatten] at hi
  obtain ⟨l, hl, hil⟩ := hi
  rw [List.mem_map] at hl
  obtain ⟨b, hb, rfl⟩ := hl
  rw [List.mem_range] at hb
  rw [List.mem_map] at hil
  obtain ⟨i0, hi0, rfl⟩ := hil
  rw [List.mem_map] at hi0
  obtain ⟨r, hr, rfl⟩ := hi0
  exact ⟨b, r, hb, hr, rfl⟩

/-- C5: after `no_object_mask_filter`, the (flattened) no-object mask is `0`
at every flat positive index produced by `preprocess_targets`, whatever its
IoU-derived value was, and unchanged at every other position. -/
theorem c5_mask_suppression (anchors : List (ℚ × ℚ))
    (tb : List (List (Row ℚ))) (counts : List ℕ) (mask : List ℚ)
    (h6 : anchors.length = 6)
    (hcoords : ∀ b, b < tb.length →
      ∀ r ∈ (tb.getD b []).take (counts.getD b 0),
        0 ≤ r.getD 0 0 ∧ r.getD 0 0 < 416 ∧
          0 ≤ r.getD 1 0 ∧ r.getD 1 0 < 416)
    (hlen : mask.length = tb.length * numPredictions) :
    (∀ i ∈ (preprocessTargets tb counts anchors 416).2,
      0 ≤ i ∧ (no_object_mask_filter_E mask
        (preprocessTargets tb counts anchors 416).2).getD i.toNat 1 = 0) ∧
    (∀ j, j < mask.length →
      (∀ i ∈ (preprocessTargets tb counts anchors 416).2, i.toNat ≠ j) →
      (no_object_mask_filter_E mask
        (preprocessTargets tb counts anchors 416).2).getD j 0 =
        mask.getD j 0) := by
  have hrange : ∀ i ∈ (preprocessTargets tb counts anchors 416).2,
      0 ≤ i ∧ i.toNat < mask.length := by
    intro i hi
    obtain ⟨b, r, hb, hr, rfl⟩ := preprocess_index_mem tb counts anchors 416 i hi
    obtain ⟨hx0, hx1, hy0, hy1⟩ := hcoords b hb r hr
    obtain ⟨hlo, hhi⟩ := objectIndexRow_bounds anchors r h6 hx0 hx1 hy0 hy1
    have hb' : (b : ℤ) ≤ (tb.length : ℤ) - 1 := by
      have : (b : ℤ) < (tb.length : ℤ) := by exact_mod_cast hb
      omega
    have hnn : (0 : ℤ) ≤ objectIndexRow anchors 416 r +
        (b : ℤ) * ((numPredictions : ℕ) : ℤ) := by positivity
    refine ⟨hnn, ?_⟩
    rw [hlen]
    have hup : objectIndexRow anchors 416 r +
        (b : ℤ) * ((numPredictions : ℕ) : ℤ) <
        ((tb.length * numPredictions : ℕ) : ℤ) := by
      push_cast
      push_cast at hhi hb'
      nlinarith [hhi, hb']
    omega
  constructor
  · intro i hi
    obtain ⟨hnn, hlt⟩ := hrange i hi
    exact ⟨hnn, filter_getD_of_hit _ mask i.toNat 1 hlt ⟨i, hi, rfl⟩⟩
  · intro j _ hnot
    exact filter_getD_of_not_hit _ mask j 0 hnot

/-- Witness for `c5_mask_suppression`: one image, one in-range box, an
all-ones mask of length `num_predictions`. -/
theorem c5_mask_suppression_witness :
    (List.replicate (1 * numPredictions) (1 : ℚ)).length =
      ([[rowEx]] : List (List (Row ℚ))).length * numPredictions ∧
    ∀ i ∈ (preprocessTargets [[rowEx]] [1] anchorsEx 416).2,
      0 ≤ i ∧ (no_object_mask_filter_E
        (List.replicate (1 * numPredictions) (1 : ℚ))
        (preprocessTargets [[rowEx]] [1] anchorsEx 416).2).getD i.toNat 1 = 0 :=
  ⟨by simp,
    (c5_mask_suppression anchorsEx [[rowEx]] [1]
      (List.replicate (1 * numPredictions) (1 : ℚ)) rfl
      (by
        intro b hb r hr
        have hb0 : b = 0 := by simpa using hb
        subst hb0
        simp only [List.getD_cons_zero, List.take] at hr
        have : r = rowEx := by simpa using hr
        subst this
        norm_num [rowEx])
      (by simp)).1⟩

/-- Pointwise binary cross-entropy with logits,
`-(t * log(sigmoid x) + (1 - t) * log(1 - sigmoid x))`, the value
`F.binary_cross_entropy_with_logits` sums over all positions. -/
noncomputable def bceElem (x t : ℝ) : ℝ :=
  -(t * Real.log (sigmoid x) + (1 - t) * Real.log (1 - sigmoid x))

section
open scoped Classical

/-- Sum-reduced `F.binary_cross_entropy_with_logits(input, target)`: torch
raises unless `target.size() == input.size()`, so the two shapes are
compared for equality (no broadcasting); `none` models the raise. -/
noncomputable def bceShapedSum (shape1 : List ℕ) (d1 : List ℝ)
    (shape2 : List ℕ) (d2 : List ℝ) : Option ℝ :=
  if shape1 = shape2 then
    some (((d1.zip d2).map fun p => bceElem p.1 p.2).sum)
  else none

/-- The no-object mask exactly as `YOLOLoss.forward` computes it at line 152:
`no_object_mask(predictions, targets, ignore_thresh)` where `targets` has
been REBOUND to the flat `(num_boxes, attrs)` output of `preprocess_targets`.
The assert compares `batch_size` with the number of flat target rows, and
broadcasting the `(B, P, 4)` prediction boxes against the 2-D `(T, 4)` target
requires `T = 1` or `T = P`; every other shape raises (`none`).  In the
broadcastable cases entry `(b, p)` pairs prediction row `(b, p)` with flat
target row `0` (when `T = 1`) or `p` (when `T = P`). -/
noncomputable def forwardNoobjMask (anchors : List (ℚ × ℚ))
    (image_size thresh : ℚ) (preds : List (List (Row ℚ)))
    (tb : List (List (Row ℚ))) (counts : List ℕ) :
    Option (List (List Bool)) :=
  let tflat := (preprocessTargets tb counts anchors image_size).1
  let B := preds.length
  let P := (preds.getD 0 []).length
  if tflat.length = B ∧ (tflat.length = 1 ∨ tflat.length = P) then
    some ((List.range B).map fun b =>
      (List.range P).map fun p =>
        if iouPair false true
            (((preds.getD b []).getD p []).map fun q => (q : ℝ))
            (tflat.getD (if tflat.length = 1 then 0 else p) []) <
            (thresh : ℝ) then true else false)
  else none

/-- The no-object mask as claim C1 describes it: per image, the maximum IoU
(center_format = true) between each prediction's box and the RAW target boxes
(the first `counts[b]` rows) of the same image, thresholded below
`ignore_thresh`. -/
def claimNoobjMask (preds tb : List (List (Row ℚ))) (counts : List ℕ)
    (thresh : ℚ) : List (List Bool) :=
  (List.range preds.length).map fun b =>
    (preds.getD b []).map fun p =>
      maxD (((tb.getD b []).take (counts.getD b 0)).map fun t =>
        iouPair false true p t) < thresh

/-- Embedding of `YOLOLoss.forward`: preprocess, no-object mask on the
(rebound) flat targets, scatter suppression, then the four loss terms.
`torch.scatter_`/`index_select` raise on out-of-range indices and
`F.binary_cross_entropy_with_logits` raises on shape mismatch; each raise is
`none`.  The object loss passes `target_confidence_noobj` — the all-zero
`(B, P)` tensor — as its target, as the source does at line 174. -/
noncomputable def forwardE (anchors : List (ℚ × ℚ))
    (image_size thresh no_object_coeff coord_coeff : ℚ)
    (preds : List (List (Row ℚ))) (tb : List (List (Row ℚ)))
    (counts : List ℕ) : Option (ℝ × ℝ × ℝ × ℝ × ℝ) :=
  let pre := preprocessTargets tb counts anchors image_size
  let tflat := pre.1
  let idxs := pre.2
  let B := preds.length
  let P := (preds.getD 0 []).length
  match forwardNoobjMask anchors image_size thresh preds tb counts with
  | none => none
  | some mask =>
    if _h : ∀ i ∈ idxs, 0 ≤ i ∧ i.toNat < B * P then
      let maskFlat : List ℝ := mask.flatten.map fun b => if b then 1 else 0
      let maskFiltered := no_object_mask_filter_E maskFlat idxs
      let predsFlat := preds.flatten
      let noobjLoss : ℝ :=
        ((List.range (B * P)).map fun j =>
          bceElem ((((predsFlat.getD j []).getD 4 0 : ℚ) : ℝ) -
            (1 - maskFiltered.getD j 0) * 10 ^ 7) 0).sum
      let gathered : List (Row ℝ) :=
        idxs.map fun i => (predsFlat.getD i.toNat []).map fun q => (q : ℝ)
      let coordLoss : ℝ :=
        ((gathered.zip tflat).map fun pr =>
          ((List.range 4).map fun k =>
            (pr.1.getD k 0 - pr.2.getD k 0) ^ 2).sum).sum
      let objT := bceShapedSum [idxs.length] (gathered.map fun g => g.getD 4 0)
        [B, P] (List.replicate (B * P) 0)
      let clsT := bceShapedSum
        [gathered.length, (predsFlat.getD 0 []).length - 5]
        ((gathered.map fun g => g.drop 5).flatten)
        [tflat.length, (tflat.getD 0 []).length - 5]
        ((tflat.map fun t => t.drop 5).flatten)
      match objT, clsT with
      | some objLoss, some clsLoss =>
        some (clsLoss + objLoss + (coord_coeff : ℝ) * coordLoss +
          (no_object_coeff : ℝ) * noobjLoss,
          coordLoss, objLoss, noobjLoss, clsLoss)
      | _, _ => none
    else none

end

/-- The object loss as claim C2 states it: sum-reduced BCE-with-logits
between the objectness logits gathered at the positive flat indices and an
all-ones target of the same shape as those gathered logits. -/
noncomputable def claimObjLoss (anchors : List (ℚ × ℚ)) (image_size : ℚ)
    (preds : List (List (Row ℚ))) (tb : List (List (Row ℚ)))
    (counts : List ℕ) : Option ℝ :=
  let idxs := (preprocessTargets tb counts anchors image_size).2
  let predsFlat := preds.flatten
  let gathered : List ℝ :=
    idxs.map fun i => (((predsFlat.getD i.toNat []).getD 4 0 : ℚ) : ℝ)
  bceShapedSum [idxs.length] gathered [idxs.length]
    (List.replicate idxs.length 1)

lemma getD_replicate {α : Type} (n i : ℕ) (a d : α) (h : i < n) :
    (List.replicate n a).getD i d = a := by
  rw [List.getD_eq_getElem?_getD, List.getElem?_eq_getElem (by simpa using h)]
  simp

lemma anchorIndexRow_rowW : anchorIndexRow anchorsW rowW = 0 := by
  simp [anchorIndexRow, anchorsW, argmaxIdx]

lemma strideRow_rowW : strideRow anchorsW 416 rowW = 16 := by
  rw [strideRow, scaleRow, anchorIndexRow_rowW]
  norm_num

lemma encodeRow_rowW : encodeRow anchorsW 416 rowW = [0, 0, 0, 0] := by
  have hca : chosenAnchor anchorsW rowW = (16, 16) := by
    rw [chosenAnchor, anchorIndexRow_rowW]
    simp [anchorsW]
  have hcl : clampT epsC (1 - epsC) (1 / 2 : ℚ) = 1 / 2 :=
    clampT_eq_self _ _ _ (by norm_num [epsC]) (by norm_num [epsC])
  simp only [encodeRow, txRow, tyRow, twRow, thRow, fracX_rowW, fracY_rowW,
    hcl, hca]
  norm_num [rowW, Real.log_one]

lemma objectIndexRow_rowW : objectIndexRow anchorsW 416 rowW = 507 := by
  have hsc : scaleRow anchorsW rowW = 0 := by
    rw [scaleRow, anchorIndexRow_rowW]
  have hcx : cellX anchorsW 416 rowW = 0 := by
    rw [cellX, strideRow_rowW]; norm_num [rowW]
  have hcy : cellY anchorsW 416 rowW = 0 := by
    rw [cellY, strideRow_rowW]; norm_num [rowW]
  simp only [objectIndexRow]
  rw [hsc, strideRow_rowW, hcx, hcy, anchorIndexRow_rowW]
  norm_num [Int.floor_eq_iff]

lemma range_one : List.range 1 = [0] := rfl

lemma preprocess_rowW_fst :
    (preprocessTargets [[rowW]] [1] anchorsW 416).1 = [[0, 0, 0, 0]] := by
  simp [preprocessTargets, range_one, encodeRow_rowW]

lemma preprocess_rowW_snd :
    (preprocessTargets [[rowW]] [1] anchorsW 416).2 = [507] := by
  simp [preprocessTargets, range_one, objectIndexRow_rowW]

/-- Single-slot prediction tensor whose one box coincides with `rowW`. -/
def predsC1 : List (List (Row ℚ)) := [[[8, 8, 16, 16, 0, 0]]]

/-- C1 at the failing input: `forward` feeds the ENCODED flat targets into
`no_object_mask`, so the slot whose box coincides with the raw target box is
still marked background (IoU against the encoded row `[0,0,0,0]` is 0),
while the mask the claim describes — IoU against the raw target boxes of the
same image — marks it foreground. -/
theorem c1_forward_mask_uses_encoded_targets :
    forwardNoobjMask anchorsW 416 (1 / 2) predsC1 [[rowW]] [1] =
      some [[true]] ∧
    claimNoobjMask predsC1 [[rowW]] [1] (1 / 2) = [[false]] := by
  constructor
  · have hiou : iouPair false true
        (List.map (fun q => (q : ℝ)) ([8, 8, 16, 16, 0, 0] : Row ℚ))
        ([0, 0, 0, 0] : Row ℝ) < ((1 / 2 : ℚ) : ℝ) := by
      have hlit : List.map (fun q => (q : ℝ)) ([8, 8, 16, 16, 0, 0] : Row ℚ) =
          ([8, 8, 16, 16, 0, 0] : Row ℝ) := by
        simp
      rw [hlit]
      norm_num [iouPair, min_def, max_def]
    simp only [forwardNoobjMask, preprocess_rowW_fst]
    rw [if_pos (by simp [predsC1])]
    show some [[if iouPair false true
        (List.map (fun q => (q : ℝ)) ([8, 8, 16, 16, 0, 0] : Row ℚ))
        ([0, 0, 0, 0] : Row ℝ) < ((1 / 2 : ℚ) : ℝ) then true else false]] =
      some [[true]]
    rw [if_pos hiou]
  · have hiou : ¬ (maxD [iouPair false true ([8, 8, 16, 16, 0, 0] : Row ℚ)
        rowW] < 1 / 2) := by
      norm_num [maxD, iouPair, rowW, min_def, max_def]
    show [[decide (maxD [iouPair false true ([8, 8, 16, 16, 0, 0] : Row ℚ)
        rowW] < 1 / 2)]] = [[false]]
    rw [decide_eq_false hiou]

/-- Full-grid prediction tensor for one image: 2535 identical zero slots. -/
def predsC2 : List (List (Row ℚ)) := [List.replicate 2535 [0, 0, 0, 0, 0, 0]]

/-- C2 at the failing input: the embedded `forward` raises (`none`) at the
object loss because it hands `F.binary_cross_entropy_with_logits` the
all-zero `(B, P)` no-object target instead of an all-ones target shaped like
the gathered logits, while the loss the claim describes is well defined and
equals `bceElem 0 1` here. -/
theorem c2_object_loss_target_is_noobj_zeros :
    forwardE anchorsW 416 (1 / 2) 1 1 predsC2 [[rowW]] [1] = none ∧
    claimObjLoss anchorsW 416 predsC2 [[rowW]] [1] = some (bceElem 0 1) := by
  have hP : (predsC2.getD 0 []).length = 2535 := by
    rw [show predsC2.getD 0 [] = List.replicate 2535 ([0, 0, 0, 0, 0, 0] : Row ℚ)
      from rfl, List.length_replicate]
  have hB : predsC2.length = 1 := rfl
  constructor
  · obtain ⟨m, hm⟩ : ∃ m, forwardNoobjMask anchorsW 416 (1 / 2) predsC2
        [[rowW]] [1] = some m := by
      simp only [forwardNoobjMask, preprocess_rowW_fst]
      exact ⟨_, by rw [if_pos ⟨rfl, Or.inl rfl⟩]⟩
    have hcond : ∀ i ∈ ([507] : List ℤ), 0 ≤ i ∧
        i.toNat < predsC2.length * (predsC2.getD 0 []).length := by
      intro i hi
      have hi7 : i = 507 := by simpa using hi
      subst hi7
      refine ⟨by norm_num, ?_⟩
      rw [hP, hB]
      norm_num
    have hobj : bceShapedSum [([507] : List ℤ).length]
        ((([507] : List ℤ).map fun i =>
          (predsC2.flatten.getD i.toNat []).map fun q => (q : ℝ)).map
            fun g => g.getD 4 0)
        [predsC2.length, (predsC2.getD 0 []).length]
        (List.replicate (predsC2.length * (predsC2.getD 0 []).length) 0) =
        none := by
      rw [bceShapedSum, if_neg]
      rw [hP, hB]
      simp
    simp only [forwardE, hm, preprocess_rowW_snd]
    rw [dif_pos hcond, hobj]
  · have hflat1 : ∀ l : List (Row ℚ), List.flatten [l] = l := by
      intro l; simp
    have hg : ((predsC2.flatten.getD (507 : ℤ).toNat []).getD 4 0 : ℚ) = 0 := by
      rw [show predsC2.flatten = List.flatten [List.replicate 2535
        ([0, 0, 0, 0, 0, 0] : Row ℚ)] from rfl, hflat1,
        getD_replicate 2535 _ _ _ (by norm_num)]
      rfl
    simp only [claimObjLoss, preprocess_rowW_snd, List.map_cons, List.map_nil,
      hg]
    rw [bceShapedSum, if_pos rfl]
    simp

/-- C4: when every per-image valid count is zero, `preprocess_targets`
returns empty encoded-target and flat-index sequences; `forward`, however,
then fails the `no_object_mask` assert — `batch_size == target.shape[0]`
compares the batch size with the number (0) of flat target rows — instead of
returning `no_object_coeff * noobj_loss`. -/
theorem c4_empty_targets_behavior (tb : List (List (Row ℚ)))
    (counts : List ℕ) (anchors : List (ℚ × ℚ))
    (image_size thresh nc cc : ℚ) (preds : List (List (Row ℚ)))
    (hc : ∀ c ∈ counts, c = 0) (hB : preds.length ≠ 0) :
    preprocessTargets tb counts anchors image_size = ([], []) ∧
    forwardE anchors image_size thresh nc cc preds tb counts = none := by
  have hcd : ∀ b : ℕ, counts.getD b 0 = 0 := by
    intro b
    rcases lt_or_ge b counts.length with h | h
    · exact hc _ (getD_mem counts b 0 h)
    · rw [List.getD_eq_default]
      exact h
  have hpre : preprocessTargets tb counts anchors image_size = ([], []) := by
    simp only [preprocessTargets, hcd, List.take_zero, List.map_nil,
      Prod.mk.injEq]
    constructor <;>
      · rw [List.flatten_eq_nil_iff]
        intro l hl
        rw [List.mem_map] at hl
        obtain ⟨b, _, rfl⟩ := hl
        rfl
  refine ⟨hpre, ?_⟩
  have hmask : forwardNoobjMask anchors image_size thresh preds tb counts =
      none := by
    simp only [forwardNoobjMask, hpre]
    rw [if_neg]
    intro hcon
    exact hB (hcon.1.symm ▸ rfl)
  simp only [forwardE, hmask]

/-- Witness for `c4_empty_targets_behavior`: one image with no valid boxes
and a one-slot prediction tensor. -/
theorem c4_empty_targets_behavior_witness :
    preprocessTargets ([[]] : List (List (Row ℚ))) [0] anchorsW 416 =
      ([], []) ∧
    forwardE anchorsW 416 (1 / 2) 1 1 [[[0, 0, 0, 0, 0, 0]]]
      ([[]] : List (List (Row ℚ))) [0] = none :=
  c4_empty_targets_behavior [[]] [0] anchorsW 416 (1 / 2) 1 1
    [[[0, 0, 0, 0, 0, 0]]] (by simp) (by simp)

end Yolo
